import Mathlib

/-!
Shallow embedding of `crates/ui2/src/components/context_menu.rs`.

The widget state is a list of items, a focus handle and an optional selection
index.  Item click handlers are opaque `Rc<dyn Fn(&mut WindowContext)>`
values in the source; here each handler is identified by a natural number and
an invocation is recorded as an explicit event.  Framework side effects
(`cx.emit(DismissEvent)`, `cx.notify()`, running a handler) are modelled as a
list of events returned next to the new state, in emission order.
-/

/-- Events a menu operation can send to the framework context:
`DismissEvent` for `cx.emit(DismissEvent)`, `Invoke h` for calling the click
handler identified by `h`, and `Notify` for `cx.notify()`. -/
inductive MenuEvent where
  | DismissEvent : MenuEvent
  | Invoke : Nat → MenuEvent
  | Notify : MenuEvent
deriving DecidableEq, Repr

/-- Item type `ContextMenuItem` from the source: a separator, a header with a title, or
an entry with a label, a click handler (identified by a `Nat`) and an
optional key binding (abstracted to a `Nat` identifier). -/
inductive ContextMenuItem where
  | Separator : ContextMenuItem
  | Header : String → ContextMenuItem
  | Entry : String → Nat → Option Nat → ContextMenuItem
deriving DecidableEq, Repr

/-- Source `ContextMenuItem::is_selectable`: `matches!(self, Self::Entry { .. })`. -/
def ContextMenuItem.is_selectable : ContextMenuItem → Bool
  | ContextMenuItem.Entry _ _ _ => true
  | _ => false

/-- Widget state `ContextMenu`: item list, focus handle (abstracted to an
identifier) and optional selected index. -/
structure ContextMenu where
  items : List ContextMenuItem
  focus_handle : Nat
  selected_index : Option Nat
deriving DecidableEq, Repr

/-- Source `ContextMenu::build`: the initial state handed to the builder closure has
an empty item list, a fresh focus handle and no selection. -/
def ContextMenu.build (focus : Nat) : ContextMenu :=
  { items := [], focus_handle := focus, selected_index := none }

/-- Source `ContextMenu::header`: pushes a `Header` item. -/
def ContextMenu.header (m : ContextMenu) (title : String) : ContextMenu :=
  { m with items := m.items ++ [ContextMenuItem.Header title] }

/-- Source `ContextMenu::separator`: pushes a `Separator` item. -/
def ContextMenu.separator (m : ContextMenu) : ContextMenu :=
  { m with items := m.items ++ [ContextMenuItem.Separator] }

/-- Source `ContextMenu::entry`: pushes an `Entry` item with the given label and
click handler and no key binding. -/
def ContextMenu.entry (m : ContextMenu) (label : String) (on_click : Nat) : ContextMenu :=
  { m with items := m.items ++ [ContextMenuItem.Entry label on_click none] }

/-- Source `ContextMenu::action`: pushes an `Entry` item whose handler dispatches the
action and whose key binding is whatever `KeyBinding::for_action` returned. -/
def ContextMenu.action (m : ContextMenu) (label : String) (handler : Nat)
    (key_binding : Option Nat) : ContextMenu :=
  { m with items := m.items ++ [ContextMenuItem.Entry label handler key_binding] }

/-- The body of the `for (ix, item) in ...` loops of `select_last`,
`select_next` and `select_prev`: scan a sequence of already-enumerated
`(index, item)` pairs and return the index of the first selectable one. -/
def findSelIdx : List (Nat × ContextMenuItem) → Option Nat
  | [] => none
  | (n, item) :: rest =>
      if item.is_selectable then some n else findSelIdx rest

/-- Source `ContextMenu::select_first`:
`self.selected_index = self.items.iter().position(|item| item.is_selectable());
cx.notify();`. -/
def ContextMenu.select_first (m : ContextMenu) : ContextMenu × List MenuEvent :=
  ({ m with selected_index := m.items.findIdx? ContextMenuItem.is_selectable },
   [MenuEvent.Notify])

/-- Source `ContextMenu::select_last`: scan `items.iter().enumerate().rev()` for the
first selectable item; on a hit set the selection, notify and break, otherwise
do nothing. -/
def ContextMenu.select_last (m : ContextMenu) : ContextMenu × List MenuEvent :=
  match findSelIdx m.items.enum.reverse with
  | some ix => ({ m with selected_index := some ix }, [MenuEvent.Notify])
  | none => (m, [])

/-- Source `ContextMenu::select_next`: with a selection at `ix`, scan
`items.iter().enumerate().skip(ix + 1)`; on a hit set the selection, notify
and break.  With no selection, behave as `select_first`. -/
def ContextMenu.select_next (m : ContextMenu) : ContextMenu × List MenuEvent :=
  match m.selected_index with
  | some ix =>
      match findSelIdx (m.items.enum.drop (ix + 1)) with
      | some j => ({ m with selected_index := some j }, [MenuEvent.Notify])
      | none => (m, [])
  | none => m.select_first

/-- Source `ContextMenu::select_prev`: with a selection at `ix`, scan
`items.iter().enumerate().take(ix).rev()`; on a hit set the selection, notify
and break.  With no selection, behave as `select_last`. -/
def ContextMenu.select_prev (m : ContextMenu) : ContextMenu × List MenuEvent :=
  match m.selected_index with
  | some ix =>
      match findSelIdx ((m.items.enum.take ix).reverse) with
      | some j => ({ m with selected_index := some j }, [MenuEvent.Notify])
      | none => (m, [])
  | none => m.select_last

/-- Source `ContextMenu::confirm`: if `selected_index.and_then(|ix| items.get(ix))`
is an `Entry`, run its handler; in every case emit one `DismissEvent`. -/
def ContextMenu.confirm (m : ContextMenu) : ContextMenu × List MenuEvent :=
  match m.selected_index.bind (fun ix => m.items[ix]?) with
  | some (ContextMenuItem.Entry _ handler _) =>
      (m, [MenuEvent.Invoke handler, MenuEvent.DismissEvent])
  | _ => (m, [MenuEvent.DismissEvent])

/-- Source `ContextMenu::cancel`: emit one `DismissEvent` and nothing else. -/
def ContextMenu.cancel (m : ContextMenu) : ContextMenu × List MenuEvent :=
  (m, [MenuEvent.DismissEvent])

/-- The `on_mouse_down_out` listener installed by `render`:
`|this, _, cx| this.cancel(&Default::default(), cx)`. -/
def ContextMenu.on_mouse_down_out (m : ContextMenu) : ContextMenu × List MenuEvent :=
  m.cancel

/-- Predicate `matchAt p l k` says the element of `l` at position `k` exists and
satisfies `p`; it is `false` out of bounds.  Used to speak about
"`items[k]` is an `Entry`" via `p := ContextMenuItem.is_selectable`. -/
def matchAt (p : α → Bool) (l : List α) (k : Nat) : Bool :=
  (l[k]?.map p).getD false

/-- One client operation on a menu: the four builder calls and the six
action handlers wired up by `render`. -/
inductive MenuOp where
  | header (title : String)
  | separator
  | entry (label : String) (handler : Nat)
  | action (label : String) (handler : Nat) (key_binding : Option Nat)
  | select_first
  | select_last
  | select_next
  | select_prev
  | confirm
  | cancel

/-- Apply one operation to the menu state, discarding emitted events. -/
def applyOp (m : ContextMenu) : MenuOp → ContextMenu
  | MenuOp.header t => m.header t
  | MenuOp.separator => m.separator
  | MenuOp.entry l h => m.entry l h
  | MenuOp.action l h k => m.action l h k
  | MenuOp.select_first => m.select_first.1
  | MenuOp.select_last => m.select_last.1
  | MenuOp.select_next => m.select_next.1
  | MenuOp.select_prev => m.select_prev.1
  | MenuOp.confirm => m.confirm.1
  | MenuOp.cancel => m.cancel.1

/-- Run a sequence of operations from the built initial state. -/
def runOps (focus : Nat) (ops : List MenuOp) : ContextMenu :=
  ops.foldl applyOp (ContextMenu.build focus)

/-- The selection invariant: `selected_index`, when present, points at a
selectable (`Entry`) item, in particular in bounds. -/
def goodSel (m : ContextMenu) : Bool :=
  match m.selected_index with
  | none => true
  | some ix => matchAt ContextMenuItem.is_selectable m.items ix

/-- Predicate `entryAt l k`: position `k` of `l` is in bounds and holds an `Entry`
(a selectable item). -/
def entryAt (l : List ContextMenuItem) (k : Nat) : Bool :=
  matchAt ContextMenuItem.is_selectable l k

/-- Recognises the `cx.notify()` event, the only framework effect the
selection-cursor operations may produce. -/
def isNotify : MenuEvent → Bool
  | MenuEvent.Notify => true
  | _ => false

/-- A small sample menu used to instantiate theorems with hypotheses:
a header, two entries and a separator, with the first entry selected. -/
def sampleMenu : ContextMenu :=
  { items := [ContextMenuItem.Header "File", ContextMenuItem.Entry "Open" 0 none,
              ContextMenuItem.Separator, ContextMenuItem.Entry "Save" 1 none],
    focus_handle := 0, selected_index := some 1 }

/-- Variant of `sampleMenu` with no selection. -/
def sampleMenuNoSel : ContextMenu :=
  { sampleMenu with selected_index := none }

/-- Variant of `sampleMenu` with the last entry selected. -/
def sampleMenuLast : ContextMenu :=
  { sampleMenu with selected_index := some 3 }

/-- A menu with no selectable item at all. -/
def noEntryMenu : ContextMenu :=
  { items := [ContextMenuItem.Header "Edit", ContextMenuItem.Separator],
    focus_handle := 0, selected_index := some 0 }

theorem matchAt_nil (p : α → Bool) (k : Nat) : matchAt p [] k = false := by
  simp [matchAt]

theorem matchAt_cons_zero (p : α → Bool) (a : α) (l : List α) :
    matchAt p (a :: l) 0 = p a := by
  simp [matchAt]

theorem matchAt_cons_succ (p : α → Bool) (a : α) (l : List α) (k : Nat) :
    matchAt p (a :: l) (k + 1) = matchAt p l k := by
  simp [matchAt]

theorem matchAt_eq_true_iff (p : α → Bool) (l : List α) (k : Nat) :
    matchAt p l k = true ↔ ∃ x, l[k]? = some x ∧ p x = true := by
  unfold matchAt
  cases h : l[k]? with
  | none => simp
  | some x => simp

theorem matchAt_lt_length (p : α → Bool) (l : List α) (k : Nat)
    (h : matchAt p l k = true) : k < l.length := by
  rcases (matchAt_eq_true_iff p l k).mp h with ⟨x, hx, _⟩
  by_contra hk
  rw [List.getElem?_eq_none (Nat.le_of_not_lt hk)] at hx
  exact Option.noConfusion hx

/-- Lemma: `List.findIdx?` (Rust `Iterator::position`) finds exactly the least index
whose element satisfies the predicate. -/
theorem findIdx?_eq_some_iff_matchAt (p : α → Bool) (l : List α) (j : Nat) :
    l.findIdx? p = some j ↔
      matchAt p l j = true ∧ ∀ k, k < j → matchAt p l k = false := by
  induction l generalizing j with
  | nil =>
      simp [List.findIdx?_nil, matchAt_nil]
  | cons a l ih =>
      rw [List.findIdx?_cons]
      by_cases hpa : p a = true
      · simp only [hpa, if_true]
        constructor
        · rintro h
          cases h
          refine ⟨by simpa [matchAt_cons_zero] using hpa, ?_⟩
          intro k hk
          exact absurd hk (Nat.not_lt_zero k)
        · rintro ⟨hj, hmin⟩
          cases j with
          | zero => rfl
          | succ j =>
              have h0 := hmin 0 (Nat.succ_pos j)
              rw [matchAt_cons_zero] at h0
              rw [hpa] at h0
              exact absurd h0 (by simp)
      · have hpa' : p a = false := by
          cases h : p a
          · rfl
          · exact absurd h hpa
        rw [if_neg hpa, List.findIdx?_succ]
        cases j with
        | zero =>
            simp only [Option.map_eq_some']
            constructor
            · rintro ⟨i, _, hi⟩
              exact absurd hi (by omega)
            · rintro ⟨hj, _⟩
              rw [matchAt_cons_zero, hpa'] at hj
              exact absurd hj (by simp)
        | succ j =>
            constructor
            · intro h
              rcases Option.map_eq_some'.mp h with ⟨i, hi, hij⟩
              have hij' : i = j := by omega
              rw [hij'] at hi
              rcases (ih j).mp hi with ⟨hj, hmin⟩
              refine ⟨by simpa [matchAt_cons_succ] using hj, ?_⟩
              intro k hk
              cases k with
              | zero => simpa [matchAt_cons_zero] using hpa'
              | succ k =>
                  rw [matchAt_cons_succ]
                  exact hmin k (by omega)
            · rintro ⟨hj, hmin⟩
              rw [matchAt_cons_succ] at hj
              have hi : l.findIdx? p = some j := by
                refine (ih j).mpr ⟨hj, ?_⟩
                intro k hk
                have := hmin (k + 1) (by omega)
                rwa [matchAt_cons_succ] at this
              rw [hi]
              rfl

/-- Lemma: `List.findIdx?` returns `none` exactly when no position matches. -/
theorem findIdx?_eq_none_iff_matchAt (p : α → Bool) (l : List α) :
    l.findIdx? p = none ↔ ∀ k, matchAt p l k = false := by
  rw [List.findIdx?_eq_none_iff]
  constructor
  · intro h k
    cases hk : l[k]? with
    | none => simp [matchAt, hk]
    | some x =>
        have hx : x ∈ l := List.mem_iff_getElem?.mpr ⟨k, hk⟩
        simp [matchAt, hk, h x hx]
  · intro h x hx
    rcases List.mem_iff_getElem?.mp hx with ⟨k, hk⟩
    have := h k
    rw [matchAt, hk] at this
    simpa using this

theorem findSelIdx_cons (n : Nat) (item : ContextMenuItem)
    (rest : List (Nat × ContextMenuItem)) :
    findSelIdx ((n, item) :: rest) =
      if item.is_selectable then some n else findSelIdx rest := rfl

/-- Scanning an enumeration that starts at `n` is `position` shifted by `n`. -/
theorem findSelIdx_enumFrom (l : List ContextMenuItem) (n : Nat) :
    findSelIdx (List.enumFrom n l) =
      (List.findIdx? ContextMenuItem.is_selectable l).map (fun k => k + n) := by
  induction l generalizing n with
  | nil => simp [findSelIdx, List.findIdx?_nil]
  | cons a l ih =>
      rw [List.enumFrom_cons, findSelIdx_cons, List.findIdx?_cons]
      cases hpa : a.is_selectable with
      | true => simp
      | false =>
          rw [if_neg (by simp), if_neg (by simp), ih (n + 1), List.findIdx?_succ]
          cases h : List.findIdx? ContextMenuItem.is_selectable l with
          | none => simp
          | some k =>
              simp only [Option.map_some']
              congr 1
              omega

theorem enumFrom_drop (l : List α) (n m : Nat) :
    (List.enumFrom n l).drop m = List.enumFrom (n + m) (l.drop m) := by
  induction l generalizing n m with
  | nil => simp
  | cons a l ih =>
      cases m with
      | zero => simp
      | succ m =>
          rw [List.enumFrom_cons, List.drop_succ_cons, List.drop_succ_cons, ih (n + 1) m]
          congr 1
          omega

theorem enumFrom_take (l : List α) (n m : Nat) :
    (List.enumFrom n l).take m = List.enumFrom n (l.take m) := by
  induction l generalizing n m with
  | nil => simp
  | cons a l ih =>
      cases m with
      | zero => simp
      | succ m =>
          rw [List.enumFrom_cons, List.take_succ_cons, List.take_succ_cons,
            List.enumFrom_cons, ih (n + 1) m]

theorem enum_drop (l : List α) (m : Nat) :
    l.enum.drop m = List.enumFrom m (l.drop m) := by
  have h := enumFrom_drop l 0 m
  simpa [List.enum] using h

theorem enum_take (l : List α) (m : Nat) :
    l.enum.take m = (l.take m).enum := by
  have h := enumFrom_take l 0 m
  simpa [List.enum] using h

theorem matchAt_drop (p : α → Bool) (l : List α) (n k : Nat) :
    matchAt p (l.drop n) k = matchAt p l (n + k) := by
  simp [matchAt, List.getElem?_drop]

theorem matchAt_take (p : α → Bool) (l : List α) (n k : Nat) :
    matchAt p (l.take n) k = if k < n then matchAt p l k else false := by
  by_cases h : k < n
  · simp [matchAt, List.getElem?_take, h]
  · simp [matchAt, List.getElem?_take, h]

theorem matchAt_append_left (p : α → Bool) (l l₂ : List α) (k : Nat)
    (h : matchAt p l k = true) : matchAt p (l ++ l₂) k = true := by
  have hk : k < l.length := matchAt_lt_length p l k h
  rw [matchAt, List.getElem?_append]
  rw [if_pos hk]
  exact h

theorem matchAt_of_not_lt (p : α → Bool) (l : List α) (k : Nat)
    (h : ¬ k < l.length) : matchAt p l k = false := by
  cases hc : matchAt p l k
  · rfl
  · exact absurd (matchAt_lt_length p l k hc) h

theorem matchAt_append_singleton (p : α → Bool) (l : List α) (a : α) (k : Nat) :
    matchAt p (l ++ [a]) k =
      if k < l.length then matchAt p l k
      else if k = l.length then p a else false := by
  rcases Nat.lt_trichotomy k l.length with h | h | h
  · rw [if_pos h]
    simp [matchAt, List.getElem?_append, h]
  · subst h
    rw [if_neg (by omega), if_pos rfl]
    simp [matchAt, List.getElem?_concat_length]
  · rw [if_neg (by omega), if_neg (by omega)]
    rw [matchAt, List.getElem?_eq_none (by simp; omega)]
    rfl

/-- The reversed-enumeration scan of `select_last` finds exactly the greatest
selectable index. -/
theorem findSelIdx_enum_reverse_eq_some_iff (l : List ContextMenuItem) (j : Nat) :
    findSelIdx l.enum.reverse = some j ↔
      matchAt ContextMenuItem.is_selectable l j = true ∧
      ∀ k, j < k → matchAt ContextMenuItem.is_selectable l k = false := by
  induction l using List.reverseRecOn generalizing j with
  | nil => simp [findSelIdx, matchAt_nil]
  | append_singleton l a ih =>
      have henum : (l ++ [a]).enum.reverse = (l.length, a) :: l.enum.reverse := by
        rw [List.enum_append]
        simp [List.reverse_append, List.enumFrom]
      rw [henum, findSelIdx_cons]
      cases hpa : a.is_selectable with
      | true =>
          rw [if_pos rfl]
          constructor
          · intro h
            have hj : l.length = j := by
              exact Option.some.inj h
            subst hj
            constructor
            · rw [matchAt_append_singleton]
              simp [hpa]
            · intro k hk
              rw [matchAt_append_singleton, if_neg (by omega), if_neg (by omega)]
          · rintro ⟨hj, hmin⟩
            rcases Nat.lt_trichotomy j l.length with h | h | h
            · have hcontra := hmin l.length h
              rw [matchAt_append_singleton] at hcontra
              simp [hpa] at hcontra
            · rw [h]
            · rw [matchAt_append_singleton, if_neg (by omega), if_neg (by omega)] at hj
              exact absurd hj (by simp)
      | false =>
          rw [if_neg (by simp), ih]
          constructor
          · rintro ⟨hj, hmin⟩
            have hjl : j < l.length := matchAt_lt_length _ _ _ hj
            refine ⟨?_, ?_⟩
            · rw [matchAt_append_singleton, if_pos hjl]
              exact hj
            · intro k hk
              rw [matchAt_append_singleton]
              rcases Nat.lt_trichotomy k l.length with hlt | heq | hgt
              · rw [if_pos hlt]
                exact hmin k hk
              · rw [if_neg (by omega), if_pos heq]
                exact hpa
              · rw [if_neg (by omega), if_neg (by omega)]
          · rintro ⟨hj, hmin⟩
            rw [matchAt_append_singleton] at hj
            by_cases hjl : j < l.length
            · rw [if_pos hjl] at hj
              refine ⟨hj, ?_⟩
              intro k hk
              have hthis := hmin k hk
              rw [matchAt_append_singleton] at hthis
              by_cases hkl : k < l.length
              · rwa [if_pos hkl] at hthis
              · exact matchAt_of_not_lt _ _ _ hkl
            · rw [if_neg hjl] at hj
              by_cases hje : j = l.length
              · rw [if_pos hje] at hj
                rw [hpa] at hj
                exact absurd hj (by simp)
              · rw [if_neg hje] at hj
                exact absurd hj (by simp)

/-- The reversed-enumeration scan of `select_last` comes back empty exactly
when no index is selectable. -/
theorem findSelIdx_enum_reverse_eq_none_iff (l : List ContextMenuItem) :
    findSelIdx l.enum.reverse = none ↔
      ∀ k, matchAt ContextMenuItem.is_selectable l k = false := by
  induction l using List.reverseRecOn with
  | nil => simp [findSelIdx, matchAt_nil]
  | append_singleton l a ih =>
      have henum : (l ++ [a]).enum.reverse = (l.length, a) :: l.enum.reverse := by
        rw [List.enum_append]
        simp [List.reverse_append, List.enumFrom]
      rw [henum, findSelIdx_cons]
      cases hpa : a.is_selectable with
      | true =>
          rw [if_pos rfl]
          constructor
          · intro h
            exact absurd h (by simp)
          · intro h
            have hcontra := h l.length
            rw [matchAt_append_singleton, if_neg (by omega), if_pos rfl] at hcontra
            rw [hpa] at hcontra
            exact absurd hcontra (by simp)
      | false =>
          rw [if_neg (by simp), ih]
          constructor
          · intro h k
            rw [matchAt_append_singleton]
            rcases Nat.lt_trichotomy k l.length with hlt | heq | hgt
            · rw [if_pos hlt]
              exact h k
            · rw [if_neg (by omega), if_pos heq]
              exact hpa
            · rw [if_neg (by omega), if_neg (by omega)]
          · intro h k
            have hthis := h k
            rw [matchAt_append_singleton] at hthis
            by_cases hkl : k < l.length
            · rwa [if_pos hkl] at hthis
            · exact matchAt_of_not_lt _ _ _ hkl

/-- The `select_next` scan over `enumerate().skip(n)` finds exactly the least
selectable index that is at least `n`. -/
theorem findSelIdx_enum_drop_eq_some_iff (l : List ContextMenuItem) (n j : Nat) :
    findSelIdx (l.enum.drop n) = some j ↔
      n ≤ j ∧ matchAt ContextMenuItem.is_selectable l j = true ∧
      ∀ k, n ≤ k → k < j → matchAt ContextMenuItem.is_selectable l k = false := by
  rw [enum_drop, findSelIdx_enumFrom]
  constructor
  · intro h
    rcases Option.map_eq_some'.mp h with ⟨i, hi, hij⟩
    rcases (findIdx?_eq_some_iff_matchAt _ _ _).mp hi with ⟨hmi, hmin⟩
    have hj : j = n + i := by omega
    subst hj
    rw [matchAt_drop] at hmi
    refine ⟨by omega, hmi, ?_⟩
    intro k hnk hkj
    have hk := hmin (k - n) (by omega)
    rw [matchAt_drop] at hk
    have heq : n + (k - n) = k := by omega
    rwa [heq] at hk
  · rintro ⟨hnj, hj, hmin⟩
    have hfi : List.findIdx? ContextMenuItem.is_selectable (l.drop n) = some (j - n) := by
      refine (findIdx?_eq_some_iff_matchAt _ _ _).mpr ⟨?_, ?_⟩
      · rw [matchAt_drop]
        have heq : n + (j - n) = j := by omega
        rwa [heq]
      · intro k hk
        rw [matchAt_drop]
        exact hmin (n + k) (by omega) (by omega)
    rw [hfi]
    simp only [Option.map_some']
    congr 1
    omega

/-- The `select_next` scan comes back empty exactly when nothing at or past
`n` is selectable. -/
theorem findSelIdx_enum_drop_eq_none_iff (l : List ContextMenuItem) (n : Nat) :
    findSelIdx (l.enum.drop n) = none ↔
      ∀ k, n ≤ k → matchAt ContextMenuItem.is_selectable l k = false := by
  rw [enum_drop, findSelIdx_enumFrom, Option.map_eq_none', findIdx?_eq_none_iff_matchAt]
  constructor
  · intro h k hk
    have hthis := h (k - n)
    rw [matchAt_drop] at hthis
    have heq : n + (k - n) = k := by omega
    rwa [heq] at hthis
  · intro h k
    rw [matchAt_drop]
    exact h (n + k) (by omega)

/-- The `select_prev` scan over `enumerate().take(n).rev()` finds exactly the
greatest selectable index strictly below `n`. -/
theorem findSelIdx_enum_take_reverse_eq_some_iff (l : List ContextMenuItem) (n j : Nat) :
    findSelIdx ((l.enum.take n).reverse) = some j ↔
      j < n ∧ matchAt ContextMenuItem.is_selectable l j = true ∧
      ∀ k, j < k → k < n → matchAt ContextMenuItem.is_selectable l k = false := by
  rw [enum_take, findSelIdx_enum_reverse_eq_some_iff]
  constructor
  · rintro ⟨hj, hmin⟩
    have hlen := matchAt_lt_length _ _ _ hj
    rw [List.length_take] at hlen
    have hjn : j < n := lt_of_lt_of_le hlen (Nat.min_le_left _ _)
    rw [matchAt_take, if_pos hjn] at hj
    refine ⟨hjn, hj, ?_⟩
    intro k hjk hkn
    have hthis := hmin k hjk
    rwa [matchAt_take, if_pos hkn] at hthis
  · rintro ⟨hjn, hj, hmin⟩
    constructor
    · rw [matchAt_take, if_pos hjn]
      exact hj
    · intro k hk
      rw [matchAt_take]
      by_cases hkn : k < n
      · rw [if_pos hkn]
        exact hmin k hk hkn
      · rw [if_neg hkn]

/-- The `select_prev` scan comes back empty exactly when nothing strictly
below `n` is selectable. -/
theorem findSelIdx_enum_take_reverse_eq_none_iff (l : List ContextMenuItem) (n : Nat) :
    findSelIdx ((l.enum.take n).reverse) = none ↔
      ∀ k, k < n → matchAt ContextMenuItem.is_selectable l k = false := by
  rw [enum_take, findSelIdx_enum_reverse_eq_none_iff]
  constructor
  · intro h k hk
    have hthis := h k
    rwa [matchAt_take, if_pos hk] at hthis
  · intro h k
    rw [matchAt_take]
    by_cases hk : k < n
    · rw [if_pos hk]
      exact h k hk
    · rw [if_neg hk]

theorem select_last_eq_some (m : ContextMenu) (j : Nat)
    (h : findSelIdx m.items.enum.reverse = some j) :
    m.select_last = ({ m with selected_index := some j }, [MenuEvent.Notify]) := by
  unfold ContextMenu.select_last
  rw [h]

theorem select_last_eq_none (m : ContextMenu)
    (h : findSelIdx m.items.enum.reverse = none) :
    m.select_last = (m, []) := by
  unfold ContextMenu.select_last
  rw [h]

theorem select_next_eq_of_some (m : ContextMenu) (ix : Nat)
    (h : m.selected_index = some ix) :
    m.select_next =
      match findSelIdx (m.items.enum.drop (ix + 1)) with
      | some j => ({ m with selected_index := some j }, [MenuEvent.Notify])
      | none => (m, []) := by
  unfold ContextMenu.select_next
  rw [h]

theorem select_next_eq_of_none (m : ContextMenu) (h : m.selected_index = none) :
    m.select_next = m.select_first := by
  unfold ContextMenu.select_next
  rw [h]

theorem select_prev_eq_of_some (m : ContextMenu) (ix : Nat)
    (h : m.selected_index = some ix) :
    m.select_prev =
      match findSelIdx ((m.items.enum.take ix).reverse) with
      | some j => ({ m with selected_index := some j }, [MenuEvent.Notify])
      | none => (m, []) := by
  unfold ContextMenu.select_prev
  rw [h]

theorem select_prev_eq_of_none (m : ContextMenu) (h : m.selected_index = none) :
    m.select_prev = m.select_last := by
  unfold ContextMenu.select_prev
  rw [h]

theorem confirm_fst (m : ContextMenu) : m.confirm.1 = m := by
  unfold ContextMenu.confirm
  cases hb : m.selected_index.bind (fun ix => m.items[ix]?) with
  | none => rfl
  | some item => cases item <;> rfl

theorem goodSel_iff (m : ContextMenu) :
    goodSel m = true ↔ ∀ ix, m.selected_index = some ix →
      matchAt ContextMenuItem.is_selectable m.items ix = true := by
  unfold goodSel
  cases hsel : m.selected_index with
  | none => simp
  | some ix => simp

theorem goodSel_applyOp (m : ContextMenu) (op : MenuOp)
    (h : goodSel m = true) : goodSel (applyOp m op) = true := by
  rw [goodSel_iff] at h
  cases op with
  | header t =>
      rw [goodSel_iff]
      intro ix hix
      exact matchAt_append_left _ _ _ _ (h ix hix)
  | separator =>
      rw [goodSel_iff]
      intro ix hix
      exact matchAt_append_left _ _ _ _ (h ix hix)
  | entry l hd =>
      rw [goodSel_iff]
      intro ix hix
      exact matchAt_append_left _ _ _ _ (h ix hix)
  | action l hd kb =>
      rw [goodSel_iff]
      intro ix hix
      exact matchAt_append_left _ _ _ _ (h ix hix)
  | select_first =>
      rw [goodSel_iff]
      intro ix hix
      replace hix : m.select_first.1.selected_index = some ix := hix
      have hfi : m.items.findIdx? ContextMenuItem.is_selectable = some ix := hix
      exact ((findIdx?_eq_some_iff_matchAt _ _ _).mp hfi).1
  | select_last =>
      rw [goodSel_iff]
      intro ix hix
      replace hix : m.select_last.1.selected_index = some ix := hix
      show matchAt ContextMenuItem.is_selectable m.select_last.1.items ix = true
      cases hscan : findSelIdx m.items.enum.reverse with
      | none =>
          rw [select_last_eq_none m hscan] at hix ⊢
          exact h ix hix
      | some j =>
          rw [select_last_eq_some m j hscan] at hix ⊢
          have hj : j = ix := Option.some.inj hix
          subst hj
          exact ((findSelIdx_enum_reverse_eq_some_iff _ _).mp hscan).1
  | select_next =>
      rw [goodSel_iff]
      intro ix hix
      replace hix : m.select_next.1.selected_index = some ix := hix
      show matchAt ContextMenuItem.is_selectable m.select_next.1.items ix = true
      cases hsel : m.selected_index with
      | none =>
          rw [select_next_eq_of_none m hsel] at hix ⊢
          have hfi : m.items.findIdx? ContextMenuItem.is_selectable = some ix := hix
          exact ((findIdx?_eq_some_iff_matchAt _ _ _).mp hfi).1
      | some i =>
          rw [select_next_eq_of_some m i hsel] at hix ⊢
          cases hscan : findSelIdx (m.items.enum.drop (i + 1)) with
          | none =>
              rw [hscan] at hix
              exact h ix hix
          | some j =>
              rw [hscan] at hix
              have hj : j = ix := Option.some.inj hix
              subst hj
              exact ((findSelIdx_enum_drop_eq_some_iff _ _ _).mp hscan).2.1
  | select_prev =>
      rw [goodSel_iff]
      intro ix hix
      replace hix : m.select_prev.1.selected_index = some ix := hix
      show matchAt ContextMenuItem.is_selectable m.select_prev.1.items ix = true
      cases hsel : m.selected_index with
      | none =>
          rw [select_prev_eq_of_none m hsel] at hix ⊢
          cases hscan : findSelIdx m.items.enum.reverse with
          | none =>
              rw [select_last_eq_none m hscan] at hix ⊢
              exact h ix hix
          | some j =>
              rw [select_last_eq_some m j hscan] at hix ⊢
              have hj : j = ix := Option.some.inj hix
              subst hj
              exact ((findSelIdx_enum_reverse_eq_some_iff _ _).mp hscan).1
      | some i =>
          rw [select_prev_eq_of_some m i hsel] at hix ⊢
          cases hscan : findSelIdx ((m.items.enum.take i).reverse) with
          | none =>
              rw [hscan] at hix
              exact h ix hix
          | some j =>
              rw [hscan] at hix
              have hj : j = ix := Option.some.inj hix
              subst hj
              exact ((findSelIdx_enum_take_reverse_eq_some_iff _ _ _).mp hscan).2.1
  | confirm =>
      show goodSel m.confirm.1 = true
      rw [confirm_fst]
      rw [goodSel_iff]
      exact h
  | cancel =>
      rw [goodSel_iff]
      exact h

theorem goodSel_foldl (ops : List MenuOp) (m : ContextMenu)
    (h : goodSel m = true) : goodSel (ops.foldl applyOp m) = true := by
  induction ops generalizing m with
  | nil => exact h
  | cons op ops ih => exact ih _ (goodSel_applyOp m op h)

/-- C1: for every menu whose `selected_index` is `some ix`, `select_next`
sets `selected_index` to `some j` for the least `j > ix` with `items[j]` an
`Entry`, and leaves `selected_index` unchanged when no such `j` exists; with
no selection it has the same effect on `selected_index` as `select_first`. -/
theorem claim_C1_select_next (m : ContextMenu) :
    (∀ ix, m.selected_index = some ix →
      ((∃ j, m.select_next.1.selected_index = some j ∧ ix < j ∧
          entryAt m.items j = true ∧
          ∀ k, ix < k → k < j → entryAt m.items k = false) ∨
        ((∀ j, ix < j → entryAt m.items j = false) ∧
          m.select_next.1.selected_index = some ix))) ∧
    (m.selected_index = none →
      m.select_next.1.selected_index = m.select_first.1.selected_index) := by
  unfold entryAt
  constructor
  · intro ix hix
    rw [select_next_eq_of_some m ix hix]
    cases hscan : findSelIdx (m.items.enum.drop (ix + 1)) with
    | some j =>
        left
        rcases (findSelIdx_enum_drop_eq_some_iff _ _ _).mp hscan with ⟨hle, hj, hmin⟩
        exact ⟨j, rfl, by omega, hj, fun k hk1 hk2 => hmin k (by omega) hk2⟩
    | none =>
        right
        have hnone := (findSelIdx_enum_drop_eq_none_iff _ _).mp hscan
        exact ⟨fun j hj => hnone j (by omega), hix⟩
  · intro hnone
    rw [select_next_eq_of_none m hnone]

/-- C2: for every menu whose `selected_index` is `some ix`, `select_prev`
sets `selected_index` to `some j` for the greatest `j < ix` with `items[j]`
an `Entry`, and leaves `selected_index` unchanged when no such `j` exists;
with no selection it has the same effect on `selected_index` as
`select_last`. -/
theorem claim_C2_select_prev (m : ContextMenu) :
    (∀ ix, m.selected_index = some ix →
      ((∃ j, m.select_prev.1.selected_index = some j ∧ j < ix ∧
          entryAt m.items j = true ∧
          ∀ k, j < k → k < ix → entryAt m.items k = false) ∨
        ((∀ j, j < ix → entryAt m.items j = false) ∧
          m.select_prev.1.selected_index = some ix))) ∧
    (m.selected_index = none →
      m.select_prev.1.selected_index = m.select_last.1.selected_index) := by
  unfold entryAt
  constructor
  · intro ix hix
    rw [select_prev_eq_of_some m ix hix]
    cases hscan : findSelIdx ((m.items.enum.take ix).reverse) with
    | some j =>
        left
        rcases (findSelIdx_enum_take_reverse_eq_some_iff _ _ _).mp hscan with ⟨hlt, hj, hmin⟩
        exact ⟨j, rfl, hlt, hj, hmin⟩
    | none =>
        right
        have hnone := (findSelIdx_enum_take_reverse_eq_none_iff _ _).mp hscan
        exact ⟨hnone, hix⟩
  · intro hnone
    rw [select_prev_eq_of_none m hnone]

/-- C3: `select_first` sets `selected_index` to `some j` for the least `j`
with `items[j]` an `Entry`, and to `none` (clearing any previous selection)
when no item is an `Entry`. -/
theorem claim_C3_select_first (m : ContextMenu) :
    ((∃ k, entryAt m.items k = true) →
      ∃ j, m.select_first.1.selected_index = some j ∧ entryAt m.items j = true ∧
        ∀ k, k < j → entryAt m.items k = false) ∧
    ((∀ k, entryAt m.items k = false) → m.select_first.1.selected_index = none) := by
  unfold entryAt
  constructor
  · rintro ⟨k, hk⟩
    cases hscan : m.items.findIdx? ContextMenuItem.is_selectable with
    | none =>
        have hall := (findIdx?_eq_none_iff_matchAt _ _).mp hscan k
        rw [hk] at hall
        exact absurd hall (by simp)
    | some j =>
        rcases (findIdx?_eq_some_iff_matchAt _ _ _).mp hscan with ⟨hj, hmin⟩
        refine ⟨j, ?_, hj, hmin⟩
        show m.items.findIdx? ContextMenuItem.is_selectable = some j
        exact hscan
  · intro hall
    show m.items.findIdx? ContextMenuItem.is_selectable = none
    exact (findIdx?_eq_none_iff_matchAt _ _).mpr hall

/-- C4: `select_last` sets `selected_index` to `some j` for the greatest `j`
with `items[j]` an `Entry`; when no item is an `Entry`, `selected_index` is
left unchanged (it is not cleared to `none`). -/
theorem claim_C4_select_last (m : ContextMenu) :
    ((∃ k, entryAt m.items k = true) →
      ∃ j, m.select_last.1.selected_index = some j ∧ entryAt m.items j = true ∧
        ∀ k, j < k → entryAt m.items k = false) ∧
    ((∀ k, entryAt m.items k = false) →
      m.select_last.1.selected_index = m.selected_index) := by
  unfold entryAt
  constructor
  · rintro ⟨k, hk⟩
    cases hscan : findSelIdx m.items.enum.reverse with
    | none =>
        have hall := (findSelIdx_enum_reverse_eq_none_iff _).mp hscan k
        rw [hk] at hall
        exact absurd hall (by simp)
    | some j =>
        rcases (findSelIdx_enum_reverse_eq_some_iff _ _).mp hscan with ⟨hj, hmin⟩
        refine ⟨j, ?_, hj, hmin⟩
        rw [select_last_eq_some m j hscan]
  · intro hall
    have hscan : findSelIdx m.items.enum.reverse = none :=
      (findSelIdx_enum_reverse_eq_none_iff _).mpr hall
    rw [select_last_eq_none m hscan]


theorem confirm_eq_entry (m : ContextMenu) (ix : Nat) (label : String) (hd : Nat)
    (kb : Option Nat) (hsel : m.selected_index = some ix)
    (hitem : m.items[ix]? = some (ContextMenuItem.Entry label hd kb)) :
    m.confirm = (m, [MenuEvent.Invoke hd, MenuEvent.DismissEvent]) := by
  unfold ContextMenu.confirm
  have hb : m.selected_index.bind (fun i => m.items[i]?) =
      some (ContextMenuItem.Entry label hd kb) := by
    rw [hsel]
    exact hitem
  rw [hb]

theorem confirm_eq_dismiss (m : ContextMenu)
    (h : ∀ label hd kb, m.selected_index.bind (fun i => m.items[i]?) ≠
        some (ContextMenuItem.Entry label hd kb)) :
    m.confirm = (m, [MenuEvent.DismissEvent]) := by
  unfold ContextMenu.confirm
  cases hb : m.selected_index.bind (fun i => m.items[i]?) with
  | none => rfl
  | some item =>
      cases item with
      | Separator => rfl
      | Header t => rfl
      | Entry label hd kb => exact absurd hb (h label hd kb)

/-- C5: `confirm` runs the click handler of the item at `selected_index`
exactly when the selection is `some ix` and `items[ix]` is an `Entry`; in
every case it emits exactly one `DismissEvent` and leaves the whole menu
state unchanged. -/
theorem claim_C5_confirm (m : ContextMenu) :
    m.confirm.1 = m ∧
    m.confirm.2.count MenuEvent.DismissEvent = 1 ∧
    ∀ hd, MenuEvent.Invoke hd ∈ m.confirm.2 ↔
      ∃ ix, m.selected_index = some ix ∧
        ∃ label kb, m.items[ix]? = some (ContextMenuItem.Entry label hd kb) := by
  have hcase :
      (∃ label hd0 kb ix, m.selected_index = some ix ∧
          m.items[ix]? = some (ContextMenuItem.Entry label hd0 kb) ∧
          m.confirm = (m, [MenuEvent.Invoke hd0, MenuEvent.DismissEvent])) ∨
      (m.confirm = (m, [MenuEvent.DismissEvent]) ∧
        ∀ ix, m.selected_index = some ix →
          ∀ label hd0 kb, m.items[ix]? ≠ some (ContextMenuItem.Entry label hd0 kb)) := by
    cases hsel : m.selected_index with
    | none =>
        right
        refine ⟨confirm_eq_dismiss m ?_, ?_⟩
        · intro label hd kb
          rw [hsel]
          simp
        · intro ix hix
          exact Option.noConfusion hix
    | some ix =>
        cases hitem : m.items[ix]? with
        | none =>
            right
            refine ⟨confirm_eq_dismiss m ?_, ?_⟩
            · intro label hd kb
              rw [hsel]
              show m.items[ix]? ≠ some (ContextMenuItem.Entry label hd kb)
              rw [hitem]
              simp
            · intro ix2 hix2 label hd kb
              rw [← Option.some.inj hix2, hitem]
              simp
        | some item =>
            cases item with
            | Separator =>
                right
                refine ⟨confirm_eq_dismiss m ?_, ?_⟩
                · intro label hd kb
                  rw [hsel]
                  show m.items[ix]? ≠ some (ContextMenuItem.Entry label hd kb)
                  rw [hitem]
                  simp
                · intro ix2 hix2 label hd kb
                  rw [← Option.some.inj hix2, hitem]
                  simp
            | Header t =>
                right
                refine ⟨confirm_eq_dismiss m ?_, ?_⟩
                · intro label hd kb
                  rw [hsel]
                  show m.items[ix]? ≠ some (ContextMenuItem.Entry label hd kb)
                  rw [hitem]
                  simp
                · intro ix2 hix2 label hd kb
                  rw [← Option.some.inj hix2, hitem]
                  simp
            | Entry label hd0 kb =>
                left
                exact ⟨label, hd0, kb, ix, rfl, hitem,
                  confirm_eq_entry m ix label hd0 kb hsel hitem⟩
  rcases hcase with ⟨label, hd0, kb, ix, hsel, hitem, hc⟩ | ⟨hc, hno⟩
  · refine ⟨confirm_fst m, ?_, ?_⟩
    · rw [hc]
      simp
    · intro hd
      rw [hc]
      simp only [List.mem_cons, List.mem_singleton]
      constructor
      · intro hmem
        have hde : hd = hd0 := by
          rcases hmem with h1 | h2
          · exact MenuEvent.Invoke.inj h1
          · exact absurd h2 (by simp)
        subst hde
        exact ⟨ix, hsel, label, kb, hitem⟩
      · rintro ⟨ix2, hix2, label2, kb2, hit2⟩
        rw [hsel] at hix2
        rw [← Option.some.inj hix2, hitem] at hit2
        have hee := Option.some.inj hit2
        left
        cases hee
        rfl
  · refine ⟨confirm_fst m, ?_, ?_⟩
    · rw [hc]
      simp
    · intro hd
      rw [hc]
      simp only [List.mem_singleton]
      constructor
      · intro hmem
        exact absurd hmem (by simp)
      · rintro ⟨ix2, hix2, label2, kb2, hit2⟩
        exact absurd hit2 (hno ix2 hix2 label2 hd kb2)

/-- C6: `cancel` emits exactly one `DismissEvent`, invokes no entry handler,
and leaves the menu state unchanged; the `on_mouse_down_out` listener
installed by `render` is exactly `cancel`. -/
theorem claim_C6_cancel (m : ContextMenu) :
    m.cancel = (m, [MenuEvent.DismissEvent]) ∧ m.on_mouse_down_out = m.cancel :=
  ⟨rfl, rfl⟩

/-- C7: in every state reachable from the built initial state by any
sequence of builder and handler operations, `selected_index` is `none` or
`some ix` with `ix` in bounds and `items[ix]` an `Entry`. -/
theorem claim_C7_selection_invariant (focus : Nat) (ops : List MenuOp) :
    (runOps focus ops).selected_index = none ∨
    ∃ ix, (runOps focus ops).selected_index = some ix ∧
      ix < (runOps focus ops).items.length ∧
      entryAt (runOps focus ops).items ix = true := by
  have h : goodSel (runOps focus ops) = true :=
    goodSel_foldl ops (ContextMenu.build focus) rfl
  rw [goodSel_iff] at h
  cases hsel : (runOps focus ops).selected_index with
  | none => exact Or.inl rfl
  | some ix =>
      right
      have hm := h ix hsel
      exact ⟨ix, rfl, matchAt_lt_length _ _ _ hm, hm⟩

/-- C8: `build` starts from an empty item list with no selection, and each
builder call appends exactly one item of the corresponding kind at the end
of the list, leaving all previously added items and their order unchanged. -/
theorem claim_C8_builder (focus : Nat) (m : ContextMenu) (title label label2 : String)
    (hd hd2 : Nat) (kb : Option Nat) :
    (ContextMenu.build focus).items = [] ∧
    (ContextMenu.build focus).selected_index = none ∧
    (m.header title).items = m.items ++ [ContextMenuItem.Header title] ∧
    m.separator.items = m.items ++ [ContextMenuItem.Separator] ∧
    (m.entry label hd).items = m.items ++ [ContextMenuItem.Entry label hd none] ∧
    (m.action label2 hd2 kb).items = m.items ++ [ContextMenuItem.Entry label2 hd2 kb] :=
  ⟨rfl, rfl, rfl, rfl, rfl, rfl⟩

/-- C9: each of `select_first`, `select_last`, `select_next` and
`select_prev` modifies at most `selected_index`: the item list and the focus
handle are unchanged, and every event emitted is a `Notify`, so no entry
handler runs and no `DismissEvent` is emitted. -/
theorem claim_C9_select_ops_frame (m : ContextMenu) :
    (m.select_first.1.items = m.items ∧ m.select_first.1.focus_handle = m.focus_handle ∧
      m.select_first.2.all isNotify = true) ∧
    (m.select_last.1.items = m.items ∧ m.select_last.1.focus_handle = m.focus_handle ∧
      m.select_last.2.all isNotify = true) ∧
    (m.select_next.1.items = m.items ∧ m.select_next.1.focus_handle = m.focus_handle ∧
      m.select_next.2.all isNotify = true) ∧
    (m.select_prev.1.items = m.items ∧ m.select_prev.1.focus_handle = m.focus_handle ∧
      m.select_prev.2.all isNotify = true) := by
  refine ⟨?_, ?_, ?_, ?_⟩
  · simp [ContextMenu.select_first, isNotify]
  · unfold ContextMenu.select_last
    cases findSelIdx m.items.enum.reverse <;> simp [isNotify]
  · unfold ContextMenu.select_next
    cases m.selected_index with
    | none =>
        unfold ContextMenu.select_first
        simp [isNotify]
    | some ix =>
        cases hscan : findSelIdx (m.items.enum.drop (ix + 1)) <;> simp [isNotify, hscan]
  · unfold ContextMenu.select_prev
    cases m.selected_index with
    | none =>
        unfold ContextMenu.select_last
        cases findSelIdx m.items.enum.reverse <;> simp [isNotify]
    | some ix =>
        cases hscan : findSelIdx ((m.items.enum.take ix).reverse) <;> simp [isNotify, hscan]

/-- C10: navigation is linear, not circular: at the greatest selectable
index `select_next` leaves the whole state unchanged and emits nothing, and
at the least selectable index `select_prev` does the same; both are
therefore idempotent at those endpoints. -/
theorem claim_C10_no_wrap (m : ContextMenu) (ix : Nat) :
    (m.selected_index = some ix → entryAt m.items ix = true →
      (∀ k, ix < k → entryAt m.items k = false) →
      m.select_next = (m, []) ∧ m.select_next.1.select_next = m.select_next) ∧
    (m.selected_index = some ix → entryAt m.items ix = true →
      (∀ k, k < ix → entryAt m.items k = false) →
      m.select_prev = (m, []) ∧ m.select_prev.1.select_prev = m.select_prev) := by
  unfold entryAt
  constructor
  · intro hsel _ hmax
    have hscan : findSelIdx (m.items.enum.drop (ix + 1)) = none :=
      (findSelIdx_enum_drop_eq_none_iff _ _).mpr (fun k hk => hmax k (by omega))
    have h1 : m.select_next = (m, []) := by
      rw [select_next_eq_of_some m ix hsel, hscan]
    have h2 : m.select_next.1 = m := by
      rw [h1]
    refine ⟨h1, ?_⟩
    rw [h2]
  · intro hsel _ hmin
    have hscan : findSelIdx ((m.items.enum.take ix).reverse) = none :=
      (findSelIdx_enum_take_reverse_eq_none_iff _ _).mpr hmin
    have h1 : m.select_prev = (m, []) := by
      rw [select_prev_eq_of_some m ix hsel, hscan]
    have h2 : m.select_prev.1 = m := by
      rw [h1]
    refine ⟨h1, ?_⟩
    rw [h2]

/-- Witness for C1: on `sampleMenuNoSel`, whose selection is `none`,
`select_next` acts on `selected_index` exactly as `select_first`. -/
theorem claim_C1_select_next_witness :
    sampleMenuNoSel.selected_index = none ∧
    (ContextMenu.select_next sampleMenuNoSel).1.selected_index =
      (ContextMenu.select_first sampleMenuNoSel).1.selected_index :=
  ⟨rfl, (claim_C1_select_next sampleMenuNoSel).2 rfl⟩

/-- Witness for C2: on `sampleMenuNoSel`, whose selection is `none`,
`select_prev` acts on `selected_index` exactly as `select_last`. -/
theorem claim_C2_select_prev_witness :
    sampleMenuNoSel.selected_index = none ∧
    (ContextMenu.select_prev sampleMenuNoSel).1.selected_index =
      (ContextMenu.select_last sampleMenuNoSel).1.selected_index :=
  ⟨rfl, (claim_C2_select_prev sampleMenuNoSel).2 rfl⟩

/-- Witness for C3: on `noEntryMenu`, which holds no `Entry`, `select_first`
clears the selection to `none`. -/
theorem claim_C3_select_first_witness :
    (ContextMenu.select_first noEntryMenu).1.selected_index = none :=
  (claim_C3_select_first noEntryMenu).2 (fun k =>
    match k with
    | 0 => rfl
    | 1 => rfl
    | n + 2 => matchAt_of_not_lt _ _ _ (by
        have hlen : noEntryMenu.items.length = 2 := rfl
        omega))

/-- Witness for C4: on `noEntryMenu`, which holds no `Entry`, `select_last`
leaves the stale selection `some 0` untouched. -/
theorem claim_C4_select_last_witness :
    noEntryMenu.selected_index = some 0 ∧
    (ContextMenu.select_last noEntryMenu).1.selected_index = some 0 :=
  ⟨rfl, (claim_C4_select_last noEntryMenu).2 (fun k =>
    match k with
    | 0 => rfl
    | 1 => rfl
    | n + 2 => matchAt_of_not_lt _ _ _ (by
        have hlen : noEntryMenu.items.length = 2 := rfl
        omega))⟩

/-- Witness for C5: `confirm` on `sampleMenu` keeps the state and emits one
`DismissEvent`. -/
theorem claim_C5_confirm_witness :
    (ContextMenu.confirm sampleMenu).1 = sampleMenu ∧
    (ContextMenu.confirm sampleMenu).2.count MenuEvent.DismissEvent = 1 :=
  ⟨(claim_C5_confirm sampleMenu).1, (claim_C5_confirm sampleMenu).2.1⟩

/-- Witness for C10: `select_next` at the last entry of `sampleMenuLast` and
`select_prev` at the first entry of `sampleMenu` leave the state unchanged
and emit nothing. -/
theorem claim_C10_no_wrap_witness :
    sampleMenuLast.selected_index = some 3 ∧
    entryAt sampleMenuLast.items 3 = true ∧
    ContextMenu.select_next sampleMenuLast = (sampleMenuLast, []) ∧
    sampleMenu.selected_index = some 1 ∧
    entryAt sampleMenu.items 1 = true ∧
    ContextMenu.select_prev sampleMenu = (sampleMenu, []) := by
  refine ⟨rfl, rfl, ?_, rfl, rfl, ?_⟩
  · exact ((claim_C10_no_wrap sampleMenuLast 3).1 rfl rfl
      (fun k hk => matchAt_of_not_lt _ _ _ (by
        have hlen : sampleMenuLast.items.length = 4 := rfl
        omega))).1
  · exact ((claim_C10_no_wrap sampleMenu 1).2 rfl rfl
      (fun k hk => by
        have hk0 : k = 0 := by omega
        rw [hk0]
        rfl)).1
